import Mathlib

/-!
Verification of the duplicate-file detector `fichier-doublon.py`.

Shallow embedding conventions:
* A Python `File` object is the structure `File` below; its fields are computed
  once at construction in the source, so here they are plain immutable data.
* Python `defaultdict(list)` populated by a loop, then iterated with `.items()`,
  is modelled by `buckets`: keys in first-appearance order (insertion-ordered
  dict semantics), each bucket holding the input elements with that key, in
  input order.
* File contents are `List Nat` (byte values); a fallible read is an
  `Option (List Nat)` (`none` = the `except` branch was taken).
* The MD5 algorithm itself is external (`hashlib`); it enters the model as an
  abstract update/hexdigest pair, exactly at the boundary where the source
  calls into `hashlib`.
-/

/-- Model of the Python class `File`: one record per filesystem entry, fields
in the order `__init__` computes them. `first_bytes` is the hex string of the
first five bytes (or the sentinel), `md5` the full-content digest (or `""`). -/
structure File where
  path : String
  name : String
  size : Nat
  first_bytes : String
  last_modified : Int
  md5 : String
deriving DecidableEq

/-- Keys of a Python dict in insertion order: `seen` are keys already present;
a key is appended the first time it occurs. -/
def firstKeysAux {K : Type} [DecidableEq K] : List K → List K → List K
  | _, [] => []
  | seen, k :: ks =>
    if k ∈ seen then firstKeysAux seen ks else k :: firstKeysAux (k :: seen) ks

/-- Keys of a Python dict built by one pass over `l`, in first-appearance order. -/
def firstKeys {K : Type} [DecidableEq K] (l : List K) : List K :=
  firstKeysAux [] l

/-- Model of `d = defaultdict(list); for x in l: d[key(x)].append(x)` followed by
iterating `d.items()`: pairs in key first-appearance order, each bucket holding
the elements with that key in input order. -/
def buckets {K F : Type} [DecidableEq K] (key : F → K) (l : List F) : List (K × List F) :=
  (firstKeys (l.map key)).map (fun k => (k, l.filter (fun f => decide (key f = k))))

/-- Model of `find_duplicates` (source lines 60-80): partition by `size`,
keep buckets with `len > 1`, sub-partition by `first_bytes`, keep `len > 1`,
sub-partition by `md5`, emit buckets with `len > 1`. The nested `for` loops
appending groups to `duplicates` are the nested `flatMap`/`filterMap`. -/
def find_duplicates (file_list : List File) : List (List File) :=
  (buckets (fun f => f.size) file_list).flatMap (fun sp =>
    if 1 < sp.2.length then
      (buckets (fun f => f.first_bytes) sp.2).flatMap (fun bp =>
        if 1 < bp.2.length then
          (buckets (fun f => f.md5) bp.2).filterMap (fun mp =>
            if 1 < mp.2.length then some mp.2 else none)
        else [])
    else [])

/-- `f` and `g` are reported in one duplicate group of `groups`. -/
def sameGroup (f g : File) (groups : List (List File)) : Prop :=
  ∃ G ∈ groups, f ∈ G ∧ g ∈ G

instance (f g : File) (groups : List (List File)) : Decidable (sameGroup f g groups) :=
  inferInstanceAs (Decidable (∃ G ∈ groups, f ∈ G ∧ g ∈ G))

/-- The candidate group of `f` inside `l`: the members of `l` agreeing with `f`
on `size`, `first_bytes` and `md5`, in input order. Every emitted group of
`find_duplicates` is of this shape. -/
def canonGroup (l : List File) (f : File) : List File :=
  ((l.filter (fun x => decide (x.size = f.size))).filter
      (fun x => decide (x.first_bytes = f.first_bytes))).filter
    (fun x => decide (x.md5 = f.md5))

/-- Lowercase hex of one byte, as the `hex()` method of Python bytes renders it. -/
def byteHex (b : Nat) : String :=
  String.mk [Nat.digitChar (b % 256 / 16), Nat.digitChar (b % 16)]

/-- Lowercase hex of a byte string, the `hex()` method of Python bytes. -/
def bytesHex (bs : List Nat) : String :=
  String.join (bs.map byteHex)

/-- Model of `File.get_first_bytes` (source lines 19-27) at the read boundary:
`some content` means the `open`/`read` succeeded on a file whose bytes are
`content` (`f.read(5)` yields its first five bytes), `none` means any
exception was raised, answered by the sentinel `"0000000000"`. -/
def get_first_bytes (read_result : Option (List Nat)) : String :=
  match read_result with
  | some bytes_data => bytesHex (bytes_data.take 5)
  | none => "0000000000"

/-- The successive `f.read(4096)` chunks fed to `hash_md5.update` by
`File.calculate_md5` (source line 34). -/
def md5Chunks : List Nat → List (List Nat)
  | [] => []
  | b :: bs => ((b :: bs).take 4096) :: md5Chunks ((b :: bs).drop 4096)
  termination_by l => l.length
  decreasing_by
    simp only [List.length_drop, List.length_cons]
    omega

/-- Model of `File.calculate_md5` (source lines 29-39): on any read failure the
`except` branch answers `""`; on success the md5 hexdigest of the stream, fed
chunk by chunk. The md5 state machine lives in `hashlib`, outside this
program, so it enters the model abstractly as the update function, the fresh
state `hashlib.md5()`, and the hexdigest rendering. -/
def calculate_md5 {H : Type} (md5_update : H → List Nat → H)
    (md5_hexdigest : H → String) (md5_new : H)
    (read_result : Option (List Nat)) : String :=
  match read_result with
  | some content => md5_hexdigest ((md5Chunks content).foldl md5_update md5_new)
  | none => ""

/-- Lookup in a Python dict rendered as an insertion-ordered association list. -/
def dictLookup {K V : Type} [DecidableEq K] (d : List (K × V)) (k : K) : Option V :=
  (d.find? (fun p => decide (p.1 = k))).map (fun p => p.2)

/-- Model of `find_duplicates_in_rep2` (source lines 112-125): bucket `rep1`
by size; keep each `rep2` file whose size has a bucket containing a file with
equal md5 (the `break` after the first match makes the inner loop an
existence test, and each `rep2` file is appended at most once, in order). -/
def find_duplicates_in_rep2 (rep1_files rep2_files : List File) : List File :=
  rep2_files.filter (fun rep2_file =>
    match dictLookup (buckets (fun f => f.size) rep1_files) rep2_file.size with
    | some bucket => bucket.any (fun rep1_file => decide (rep1_file.md5 = rep2_file.md5))
    | none => false)

/-- Model of `delete_duplicates_in_rep2_with_confirmation` (source lines
128-148) at the console and filesystem boundary: `confirmed` is the outcome of
the interactive test on line 140, and `remove_ok p` tells whether `os.remove`
on `p` succeeds (its failure is printed and the loop continues with the next
file). Result: the paths whose deletion is attempted, and the paths actually
deleted. -/
def delete_duplicates_in_rep2_with_confirmation (rep1_files rep2_files : List File)
    (confirmed : Bool) (remove_ok : String → Bool) : List String × List String :=
  let duplicates := find_duplicates_in_rep2 rep1_files rep2_files
  if duplicates.isEmpty then ([], [])
  else if confirmed then
    (duplicates.map (fun f => f.path), (duplicates.map (fun f => f.path)).filter remove_ok)
  else ([], [])

/-- One action of `rapatriate_files` per `rep2` file: a fresh copy, an
overwriting copy of a newer file, or the skip message for an older one. -/
inductive RAction where
  | copied (src dest : String) : RAction
  | updated (src dest : String) : RAction
  | skipped (fname : String) : RAction
deriving DecidableEq

/-- Model of `os.path.join(dir, leaf)` on a posix path for the shapes the
program produces (a root joined with a file basename). -/
def pathJoin (dir leaf : String) : String :=
  if leaf.toList.take 1 = ['/'] then leaf
  else if dir = "" then leaf
  else if dir.toList.reverse.take 1 = ['/'] then dir ++ leaf
  else dir ++ "/" ++ leaf

/-- The dict comprehension of source line 154 keeps, for each name, the
last-enumerated file with that name; `lastByName files n` is its lookup. -/
def lastByName (files : List File) (n : String) : Option File :=
  match files with
  | [] => none
  | f :: rest =>
    match lastByName rest n with
    | some r => some r
    | none => if f.name = n then some f else none

/-- Model of `rapatriate_files` (source lines 151-174) at the traversal and
copy boundary: `rep1_list` and `rep2_list` are what `get_all_files` returned
on the two roots, and instead of calling `shutil.copy2` the function reports
the action taken for each `rep2` file, in order. -/
def rapatriate_files (rep1 : String) (rep1_list rep2_list : List File) : List RAction :=
  rep2_list.map (fun rep2_file =>
    match lastByName rep1_list rep2_file.name with
    | none => RAction.copied rep2_file.path (pathJoin rep1 rep2_file.name)
    | some rep1_file =>
      if rep1_file.last_modified < rep2_file.last_modified then
        RAction.updated rep2_file.path (pathJoin rep1 rep2_file.name)
      else RAction.skipped rep2_file.name)

/-- Characters after the last `/`, the basename part `os.path.splitext`
scans for the extension dot. -/
def basenameChars (cs : List Char) : List Char :=
  cs.foldl (fun acc c => if c = '/' then [] else acc ++ [c]) []

/-- The extension component `os.path.splitext(p)[1]`: the suffix of the
basename from its last dot, provided some earlier character of the basename
is not a dot (leading dots never open an extension). -/
def splitext_ext (p : String) : String :=
  match (basenameChars p.toList).reverse.span (fun c => decide (c ≠ '.')) with
  | (_, []) => ""
  | (sufRev, _ :: preRev) =>
    if preRev.any (fun c => decide (c ≠ '.')) then
      String.mk ('.' :: sufRev.reverse)
    else ""

/-- Python `str.lower()` (the extension tables are pure ASCII, where
`Char.toLower` and Python agree). -/
def lowerStr (s : String) : String :=
  String.mk (s.toList.map Char.toLower)

/-- Python `str.lstrip(".")`: drop leading dots. -/
def lstripDot (s : String) : String :=
  String.mk (s.toList.dropWhile (fun c => decide (c = '.')))

/-- Model of `get_file_category` (source lines 83-100). -/
def get_file_category (file_path : String) : String :=
  let text_extensions : List String := ["txt", "doc", "docx", "odt", "csv", "xls", "ppt", "odp"]
  let image_extensions : List String := ["jpg", "png", "bmp", "gif", "svg"]
  let video_extensions : List String := ["mp4", "avi", "mov", "mpeg", "wmv"]
  let audio_extensions : List String := ["mp3", "mp2", "wav", "bwf"]
  let extension := lstripDot (lowerStr (splitext_ext file_path))
  if extension ∈ text_extensions then "texte"
  else if extension ∈ image_extensions then "images"
  else if extension ∈ video_extensions then "vidéo"
  else if extension ∈ audio_extensions then "audio"
  else "autre"

/-- One `size_by_category[category] += file.size` step: add to the entry of
`k`, or append a fresh entry (`defaultdict(int)` starts it at 0). -/
def addSize (k : String) (n : Nat) : List (String × Nat) → List (String × Nat)
  | [] => [(k, n)]
  | (k2, m) :: rest =>
    if k2 = k then (k2, m + n) :: rest else (k2, m) :: addSize k n rest

/-- Model of `calculate_size_by_category` (source lines 103-109):
`defaultdict(int)` as an insertion-ordered association list. -/
def calculate_size_by_category (file_list : List File) : List (String × Nat) :=
  file_list.foldl (fun acc f => addSize (get_file_category f.path) f.size acc) []

/-- Total of the per-category byte counts. -/
def sumVals (d : List (String × Nat)) : Nat :=
  d.foldr (fun p acc => p.2 + acc) 0

/-- Total of the sizes of a list of files. -/
def sumSizes (l : List File) : Nat :=
  l.foldr (fun f acc => f.size + acc) 0

lemma mem_firstKeysAux {K : Type} [DecidableEq K] (a : K) (l : List K) :
    ∀ seen, a ∈ firstKeysAux seen l ↔ (a ∈ l ∧ a ∉ seen) := by
  induction l with
  | nil => intro seen; simp [firstKeysAux]
  | cons k ks ih =>
    intro seen
    by_cases hk : k ∈ seen
    · rw [firstKeysAux, if_pos hk, ih seen]
      constructor
      · rintro ⟨h1, h2⟩; exact ⟨List.mem_cons_of_mem _ h1, h2⟩
      · rintro ⟨h1, h2⟩
        rcases List.mem_cons.mp h1 with h1 | h1
        · subst h1; exact absurd hk h2
        · exact ⟨h1, h2⟩
    · rw [firstKeysAux, if_neg hk]
      by_cases hak : a = k
      · subst hak; simp [hk]
      · rw [List.mem_cons]
        constructor
        · rintro (h | h)
          · exact absurd h hak
          · rcases (ih (k :: seen)).mp h with ⟨h1, h2⟩
            exact ⟨List.mem_cons_of_mem _ h1, fun hs => h2 (List.mem_cons_of_mem _ hs)⟩
        · rintro ⟨h1, h2⟩
          rcases List.mem_cons.mp h1 with h1 | h1
          · exact absurd h1 hak
          · exact Or.inr ((ih (k :: seen)).mpr
              ⟨h1, fun hs => by
                rcases List.mem_cons.mp hs with hs | hs
                · exact hak hs
                · exact h2 hs⟩)

lemma mem_firstKeys {K : Type} [DecidableEq K] (a : K) (l : List K) :
    a ∈ firstKeys l ↔ a ∈ l := by
  rw [firstKeys, mem_firstKeysAux]
  simp

lemma buckets_mem_filter {K F : Type} [DecidableEq K] (key : F → K) (l : List F)
    (p : K × List F) (hp : p ∈ buckets key l) :
    p.2 = l.filter (fun f => decide (key f = p.1)) := by
  rcases List.mem_map.mp hp with ⟨k, _, hpk⟩
  subst hpk
  rfl

lemma buckets_mem_intro {K F : Type} [DecidableEq K] (key : F → K) (l : List F)
    (f : F) (hf : f ∈ l) :
    (key f, l.filter (fun x => decide (key x = key f))) ∈ buckets key l := by
  apply List.mem_map.mpr
  refine ⟨key f, ?_, rfl⟩
  rw [mem_firstKeys]
  exact List.mem_map.mpr ⟨f, hf, rfl⟩

lemma two_mem_one_lt_length {α : Type} {L : List α} {f g : α}
    (hf : f ∈ L) (hg : g ∈ L) (hne : f ≠ g) : 1 < L.length := by
  cases L with
  | nil => cases hf
  | cons x xs =>
    cases xs with
    | nil =>
      simp only [List.mem_singleton] at hf hg
      exact absurd (hf.trans hg.symm) hne
    | cons y ys => simp [List.length_cons]

/-- Every group emitted by `find_duplicates` has more than one member and is
exactly the canonical group of each of its members. -/
lemma find_duplicates_group_spec {l : List File} {G : List File}
    (hG : G ∈ find_duplicates l) :
    1 < G.length ∧ ∀ f ∈ G, G = canonGroup l f := by
  rw [find_duplicates] at hG
  rcases List.mem_flatMap.mp hG with ⟨sp, hsp, hG1⟩
  by_cases h1 : 1 < sp.2.length
  swap
  · rw [if_neg h1] at hG1; cases hG1
  rw [if_pos h1] at hG1
  rcases List.mem_flatMap.mp hG1 with ⟨bp, hbp, hG2⟩
  by_cases h2 : 1 < bp.2.length
  swap
  · rw [if_neg h2] at hG2; cases hG2
  rw [if_pos h2] at hG2
  rcases List.mem_filterMap.mp hG2 with ⟨mp, hmp, hG3⟩
  by_cases h3 : 1 < mp.2.length
  swap
  · rw [if_neg h3] at hG3; cases hG3
  rw [if_pos h3] at hG3
  have hGmp : G = mp.2 := (Option.some.injEq _ _).mp hG3 |>.symm
  subst hGmp
  have hsize := buckets_mem_filter _ _ _ hsp
  have hfb := buckets_mem_filter _ _ _ hbp
  have hmd5 := buckets_mem_filter _ _ _ hmp
  refine ⟨h3, ?_⟩
  intro f hfG
  have hf2 : f ∈ bp.2 := by
    rw [hmd5] at hfG; exact (List.mem_filter.mp hfG).1
  have hf1 : f ∈ sp.2 := by
    rw [hfb] at hf2; exact (List.mem_filter.mp hf2).1
  have e3 : f.md5 = mp.1 := by
    rw [hmd5] at hfG
    exact of_decide_eq_true (List.mem_filter.mp hfG).2
  have e2 : f.first_bytes = bp.1 := by
    rw [hfb] at hf2
    exact of_decide_eq_true (List.mem_filter.mp hf2).2
  have e1 : f.size = sp.1 := by
    rw [hsize] at hf1
    exact of_decide_eq_true (List.mem_filter.mp hf1).2
  rw [canonGroup, e1, e2, e3, ← hsize, ← hfb, ← hmd5]

/-- Two distinct list members agreeing on size, first bytes and md5 generate a
common emitted group, namely the canonical group of the first. -/
lemma find_duplicates_group_intro {l : List File} {f g : File} (hf : f ∈ l)
    (hg : g ∈ l) (hne : f ≠ g) (hs : f.size = g.size)
    (hb : f.first_bytes = g.first_bytes) (hm : f.md5 = g.md5) :
    canonGroup l f ∈ find_duplicates l ∧ f ∈ canonGroup l f ∧ g ∈ canonGroup l f := by
  have hfc : f ∈ canonGroup l f := by
    simp [canonGroup, List.mem_filter, hf]
  have hgc : g ∈ canonGroup l f := by
    simp [canonGroup, List.mem_filter, hg, hs.symm, hb.symm, hm.symm]
  refine ⟨?_, hfc, hgc⟩
  rw [find_duplicates]
  apply List.mem_flatMap.mpr
  refine ⟨(f.size, l.filter (fun x => decide (x.size = f.size))),
    buckets_mem_intro (fun x => x.size) l f hf, ?_⟩
  have hffiles : f ∈ l.filter (fun x => decide (x.size = f.size)) := by
    simp [List.mem_filter, hf]
  have hgfiles : g ∈ l.filter (fun x => decide (x.size = f.size)) := by
    simp [List.mem_filter, hg, hs.symm]
  rw [if_pos (two_mem_one_lt_length hffiles hgfiles hne)]
  apply List.mem_flatMap.mpr
  refine ⟨(f.first_bytes,
      (l.filter (fun x => decide (x.size = f.size))).filter
        (fun x => decide (x.first_bytes = f.first_bytes))),
    buckets_mem_intro (fun x => x.first_bytes) _ f hffiles, ?_⟩
  have hffb : f ∈ (l.filter (fun x => decide (x.size = f.size))).filter
      (fun x => decide (x.first_bytes = f.first_bytes)) := by
    simp [List.mem_filter, hf]
  have hgfb : g ∈ (l.filter (fun x => decide (x.size = f.size))).filter
      (fun x => decide (x.first_bytes = f.first_bytes)) := by
    simp [List.mem_filter, hg, hs.symm, hb.symm]
  rw [if_pos (two_mem_one_lt_length hffb hgfb hne)]
  apply List.mem_filterMap.mpr
  refine ⟨(f.md5,
      ((l.filter (fun x => decide (x.size = f.size))).filter
          (fun x => decide (x.first_bytes = f.first_bytes))).filter
        (fun x => decide (x.md5 = f.md5))),
    buckets_mem_intro (fun x => x.md5) _ f hffb, ?_⟩
  have hfmd : f ∈ ((l.filter (fun x => decide (x.size = f.size))).filter
      (fun x => decide (x.first_bytes = f.first_bytes))).filter
        (fun x => decide (x.md5 = f.md5)) := by
    simp [List.mem_filter, hf]
  have hgmd : g ∈ ((l.filter (fun x => decide (x.size = f.size))).filter
      (fun x => decide (x.first_bytes = f.first_bytes))).filter
        (fun x => decide (x.md5 = f.md5)) := by
    simp [List.mem_filter, hg, hs.symm, hb.symm, hm.symm]
  rw [if_pos (two_mem_one_lt_length hfmd hgmd hne)]
  rfl

/-- Claim C1, amended: inside one list, two distinct records are reported in a
common group of `find_duplicates` exactly when they agree on `size`,
`first_bytes` and `md5`. (The claim as frozen instead demands equal size,
equal non-empty `md5`, and no `first_bytes` condition; see the
counterexample.) -/
theorem same_group_iff (l : List File) (f g : File) (hf : f ∈ l) (hg : g ∈ l)
    (hne : f ≠ g) :
    sameGroup f g (find_duplicates l) ↔
      f.size = g.size ∧ f.first_bytes = g.first_bytes ∧ f.md5 = g.md5 := by
  constructor
  · rintro ⟨G, hG, hfG, hgG⟩
    have hcanon := (find_duplicates_group_spec hG).2 f hfG
    rw [hcanon, canonGroup] at hgG
    have h3 := List.mem_filter.mp hgG
    have h2 := List.mem_filter.mp h3.1
    have h1 := List.mem_filter.mp h2.1
    exact ⟨(of_decide_eq_true h1.2).symm, (of_decide_eq_true h2.2).symm,
      (of_decide_eq_true h3.2).symm⟩
  · rintro ⟨hs, hb, hm⟩
    rcases find_duplicates_group_intro hf hg hne hs hb hm with ⟨h1, h2, h3⟩
    exact ⟨canonGroup l f, h1, h2, h3⟩

/-- Witness for C1: two one-byte files with equal content digests are grouped,
a third with different content is not consulted. -/
theorem same_group_iff_witness :
    sameGroup ⟨"t/a.txt", "a.txt", 1, "58", 0, "9dd4e461"⟩
      ⟨"t/b.txt", "b.txt", 1, "58", 0, "9dd4e461"⟩
      (find_duplicates
        [⟨"t/a.txt", "a.txt", 1, "58", 0, "9dd4e461"⟩,
         ⟨"t/b.txt", "b.txt", 1, "58", 0, "9dd4e461"⟩,
         ⟨"t/c.txt", "c.txt", 1, "59", 0, "41529076"⟩]) :=
  (same_group_iff _ _ _ (by decide) (by decide) (by decide)).mpr (by decide)

/-- Counterexample to C1 as frozen: (a) two unreadable files (md5 `""`) of
equal size and prefix digest ARE grouped, so "neither digest empty" fails in
the forward direction; (b) equal size and equal non-empty md5 but different
prefix digests are NOT grouped, so the backward direction fails too. -/
theorem same_group_iff_cex :
    ¬ (∀ (l : List File) (f g : File), f ∈ l → g ∈ l → f ≠ g →
        (sameGroup f g (find_duplicates l) ↔
          f.size = g.size ∧ f.md5 = g.md5 ∧ f.md5 ≠ "" ∧ g.md5 ≠ "")) := by
  intro h
  have h1 := h [⟨"t/u1", "u1", 7, "0000000000", 0, ""⟩,
      ⟨"t/u2", "u2", 7, "0000000000", 0, ""⟩]
    ⟨"t/u1", "u1", 7, "0000000000", 0, ""⟩ ⟨"t/u2", "u2", 7, "0000000000", 0, ""⟩
    (by decide) (by decide) (by decide)
  exact absurd h1 (by decide)

/-- Claim C2, amended: every emitted group has more than one member and no
record lands in two different groups; the frozen claim additionally forbids
members with empty `md5`, which the code does not enforce (see the
counterexample). -/
theorem groups_card_and_disjoint (l : List File) :
    (∀ G ∈ find_duplicates l, 1 < G.length)
    ∧ (∀ G1 G2 f, G1 ∈ find_duplicates l → G2 ∈ find_duplicates l →
        f ∈ G1 → f ∈ G2 → G1 = G2) := by
  constructor
  · intro G hG
    exact (find_duplicates_group_spec hG).1
  · intro G1 G2 f hG1 hG2 hf1 hf2
    rw [(find_duplicates_group_spec hG1).2 f hf1, (find_duplicates_group_spec hG2).2 f hf2]

/-- Witness for C2: the group emitted for two equal files has two members. -/
theorem groups_card_and_disjoint_witness :
    1 < (List.length
      [(⟨"t/a", "a", 1, "58", 0, "9dd4e461"⟩ : File), ⟨"t/b", "b", 1, "58", 0, "9dd4e461"⟩]) :=
  (groups_card_and_disjoint
      [⟨"t/a", "a", 1, "58", 0, "9dd4e461"⟩, ⟨"t/b", "b", 1, "58", 0, "9dd4e461"⟩]).1
    [⟨"t/a", "a", 1, "58", 0, "9dd4e461"⟩, ⟨"t/b", "b", 1, "58", 0, "9dd4e461"⟩] (by decide)

/-- Counterexample to C2 as frozen: two unreadable files (md5 `""`) of equal
size and prefix digest are emitted as a duplicate group, so a group CAN
contain records with empty `md5`. -/
theorem groups_empty_md5_cex :
    ∃ G ∈ find_duplicates
        [⟨"t/u1", "u1", 7, "0000000000", 0, ""⟩, ⟨"t/u2", "u2", 7, "0000000000", 0, ""⟩],
      ∃ f ∈ G, f.md5 = "" := by
  decide

/-- The per-candidate test of `find_duplicates_in_rep2` succeeds exactly when
some reference file has the candidate's size and md5 (emptiness unchecked). -/
lemma rep2_match_iff (A : List File) (b : File) :
    ((match dictLookup (buckets (fun f => f.size) A) b.size with
      | some bucket => bucket.any (fun a => decide (a.md5 = b.md5))
      | none => false) = true) ↔ ∃ a ∈ A, a.size = b.size ∧ a.md5 = b.md5 := by
  cases h : dictLookup (buckets (fun f => f.size) A) b.size with
  | none =>
    simp only [h]
    constructor
    · intro hfalse
      cases hfalse
    · rintro ⟨a, ha, hsz, _⟩
      exfalso
      rw [dictLookup, Option.map_eq_none', List.find?_eq_none] at h
      have hmem := buckets_mem_intro (fun f => f.size) A a ha
      have hthis := h _ hmem
      simp only [decide_eq_true_eq] at hthis
      exact hthis hsz
  | some bucket =>
    simp only [h]
    rw [dictLookup, Option.map_eq_some'] at h
    rcases h with ⟨p, hfind, hp2⟩
    have hkeyb := @List.find?_some (Nat × List File) (fun q => decide (q.1 = b.size)) p
      (buckets (fun f => f.size) A) hfind
    have hkey : p.1 = b.size := of_decide_eq_true hkeyb
    have hpmem := List.mem_of_find?_eq_some hfind
    have hfilter := buckets_mem_filter _ _ _ hpmem
    rw [List.any_eq_true]
    constructor
    · rintro ⟨a, ha, hmd⟩
      rw [← hp2, hfilter] at ha
      have hmf := List.mem_filter.mp ha
      refine ⟨a, hmf.1, ?_, of_decide_eq_true hmd⟩
      rw [← hkey]
      exact of_decide_eq_true hmf.2
    · rintro ⟨a, ha, hsz, hmd⟩
      refine ⟨a, ?_, decide_eq_true hmd⟩
      rw [← hp2, hfilter]
      rw [List.mem_filter]
      refine ⟨ha, decide_eq_true ?_⟩
      rw [hkey]
      exact hsz

/-- Claim C3, amended: the result is an ordered sub-list of the candidates;
each kept candidate has a same-size, same-md5 reference file (the code never
checks for the empty digest, see the counterexample); a candidate whose size
matches no reference size is never kept. -/
theorem rep2_duplicates_spec (A B : List File) :
    List.Sublist (find_duplicates_in_rep2 A B) B
    ∧ (∀ b ∈ find_duplicates_in_rep2 A B, ∃ a ∈ A, a.size = b.size ∧ a.md5 = b.md5)
    ∧ (∀ b ∈ B, (∀ a ∈ A, a.size ≠ b.size) → b ∉ find_duplicates_in_rep2 A B) := by
  refine ⟨List.filter_sublist B, ?_, ?_⟩
  · intro b hb
    exact (rep2_match_iff A b).mp (List.mem_filter.mp hb).2
  · intro b _ hnone hmem
    rcases (rep2_match_iff A b).mp (List.mem_filter.mp hmem).2 with ⟨a, ha, hsz, _⟩
    exact hnone a ha hsz

/-- Witness for C3: a candidate equal in size and digest to a reference file
is kept, and the matching reference is exhibited. -/
theorem rep2_duplicates_spec_witness :
    ∃ a ∈ [(⟨"1/p", "p", 3, "616263", 0, "d1"⟩ : File)],
      a.size = (⟨"2/q", "q", 3, "616263", 0, "d1"⟩ : File).size ∧
      a.md5 = (⟨"2/q", "q", 3, "616263", 0, "d1"⟩ : File).md5 :=
  (rep2_duplicates_spec [⟨"1/p", "p", 3, "616263", 0, "d1"⟩]
      [⟨"2/q", "q", 3, "616263", 0, "d1"⟩]).2.1
    ⟨"2/q", "q", 3, "616263", 0, "d1"⟩ (by decide)

/-- Counterexample to C3 as frozen: a candidate with empty md5 is returned
when a same-size reference file also has empty md5, although no reference
file matches it with a NON-empty digest. -/
theorem rep2_empty_md5_cex :
    (⟨"2/u", "u", 3, "00", 0, ""⟩ : File) ∈
      find_duplicates_in_rep2 [⟨"1/u", "u", 3, "00", 0, ""⟩] [⟨"2/u", "u", 3, "00", 0, ""⟩]
    ∧ ¬ (∃ a ∈ [(⟨"1/u", "u", 3, "00", 0, ""⟩ : File)],
        a.size = 3 ∧ a.md5 = (⟨"2/u", "u", 3, "00", 0, ""⟩ : File).md5 ∧ a.md5 ≠ "") := by
  decide

/-- Claim C4: two distinct zero-byte files that were read successfully (their
`first_bytes` is the hex of the empty read, their `md5` the digest of the
empty stream, identical for both since md5 is a function) are reported in one
group; and a zero-byte file is never grouped with a file of non-zero size. -/
theorem zero_byte_files_grouped {H : Type} (upd : H → List Nat → H)
    (hex : H → String) (new0 : H) (l : List File) (f g : File)
    (hf : f ∈ l) (hg : g ∈ l) (hne : f ≠ g) :
    (f.size = 0 → g.size = 0 →
      f.first_bytes = get_first_bytes (some []) →
      g.first_bytes = get_first_bytes (some []) →
      f.md5 = calculate_md5 upd hex new0 (some []) →
      g.md5 = calculate_md5 upd hex new0 (some []) →
      sameGroup f g (find_duplicates l))
    ∧ (f.size = 0 → g.size ≠ 0 → ¬ sameGroup f g (find_duplicates l)) := by
  constructor
  · intro hs0 hg0 hfb hgb hfm hgm
    have hs : f.size = g.size := by rw [hs0, hg0]
    have hb : f.first_bytes = g.first_bytes := by rw [hfb, hgb]
    have hm : f.md5 = g.md5 := by rw [hfm, hgm]
    rcases find_duplicates_group_intro hf hg hne hs hb hm with ⟨h1, h2, h3⟩
    exact ⟨canonGroup l f, h1, h2, h3⟩
  · rintro hs0 hgne ⟨G, hG, hfG, hgG⟩
    have hcanon := (find_duplicates_group_spec hG).2 f hfG
    rw [hcanon, canonGroup] at hgG
    have h1 := List.mem_filter.mp (List.mem_filter.mp (List.mem_filter.mp hgG).1).1
    exact hgne ((of_decide_eq_true h1.2).trans hs0)

/-- Witness for C4: two empty files are one group, an empty and a three-byte
file are not, with md5 realised by a concrete hash-state instance. -/
theorem zero_byte_files_grouped_witness :
    sameGroup ⟨"t/e1", "e1", 0, "", 0, "d41d8cd98f00b204e9800998ecf8427e"⟩
      ⟨"t/e2", "e2", 0, "", 0, "d41d8cd98f00b204e9800998ecf8427e"⟩
      (find_duplicates
        [⟨"t/e1", "e1", 0, "", 0, "d41d8cd98f00b204e9800998ecf8427e"⟩,
         ⟨"t/e2", "e2", 0, "", 0, "d41d8cd98f00b204e9800998ecf8427e"⟩,
         ⟨"t/c", "c", 3, "616263", 0, "900150983cd24fb0d6963f7d28e17f72"⟩])
    ∧ ¬ sameGroup ⟨"t/e1", "e1", 0, "", 0, "d41d8cd98f00b204e9800998ecf8427e"⟩
      ⟨"t/c", "c", 3, "616263", 0, "900150983cd24fb0d6963f7d28e17f72"⟩
      (find_duplicates
        [⟨"t/e1", "e1", 0, "", 0, "d41d8cd98f00b204e9800998ecf8427e"⟩,
         ⟨"t/e2", "e2", 0, "", 0, "d41d8cd98f00b204e9800998ecf8427e"⟩,
         ⟨"t/c", "c", 3, "616263", 0, "900150983cd24fb0d6963f7d28e17f72"⟩]) := by
  constructor
  · exact (zero_byte_files_grouped (fun h _ => h)
      (fun _ => "d41d8cd98f00b204e9800998ecf8427e") 0 _ _ _
      (by decide) (by decide) (by decide)).1 rfl rfl rfl rfl
      (by simp [calculate_md5, md5Chunks]) (by simp [calculate_md5, md5Chunks])
  · exact (zero_byte_files_grouped (fun h _ => h)
      (fun _ => "d41d8cd98f00b204e9800998ecf8427e") 0 _ _ _
      (by decide) (by decide) (by decide)).2 rfl (by decide)

lemma take_min_len {α : Type} (l : List α) (n : Nat) :
    l.take (min n l.length) = l.take n := by
  have h := List.take_take n l.length l
  rw [List.take_length] at h
  exact h.symm

/-- Claim C6: the digest engine is total under read failure — a failed prefix
read answers exactly the sentinel `"0000000000"`, a failed full read answers
exactly `""` (both functions are total Lean functions, so no exception
escapes), and a successful prefix read answers the hex encoding of the first
`min 5 size` bytes of the content. -/
theorem digest_engine_sentinels {H : Type} (upd : H → List Nat → H)
    (hex : H → String) (new0 : H) (content : List Nat) :
    get_first_bytes none = "0000000000"
    ∧ calculate_md5 upd hex new0 none = ""
    ∧ get_first_bytes (some content) = bytesHex (content.take (min 5 content.length)) := by
  refine ⟨rfl, rfl, ?_⟩
  simp only [get_first_bytes]
  rw [take_min_len]

lemma lastByName_eq_none {A : List File} {n : String}
    (h : ∀ r ∈ A, r.name ≠ n) : lastByName A n = none := by
  induction A with
  | nil => rfl
  | cons f rest ih =>
    have hrest : lastByName rest n = none :=
      ih (fun r hr => h r (List.mem_cons_of_mem _ hr))
    simp [lastByName, hrest, h f (List.mem_cons_self f rest)]

lemma lastByName_last {A2 : List File} {n : String} {r : File}
    (hr : r.name = n) (h2 : ∀ x ∈ A2, x.name ≠ n) :
    ∀ A1 : List File, lastByName (A1 ++ r :: A2) n = some r := by
  intro A1
  induction A1 with
  | nil => simp [lastByName, lastByName_eq_none h2, hr]
  | cons a rest ih => simp [lastByName, ih]

lemma lastByName_uniq {A : List File} {n : String} {r : File} (hrA : r ∈ A)
    (hr : r.name = n) (huniq : ∀ x ∈ A, x.name = n → x = r) :
    lastByName A n = some r := by
  induction A with
  | nil => cases hrA
  | cons a rest ih =>
    by_cases hmem : r ∈ rest
    · have hres := ih hmem (fun x hx hxn => huniq x (List.mem_cons_of_mem _ hx) hxn)
      simp [lastByName, hres]
    · have hnone : lastByName rest n = none := by
        apply lastByName_eq_none
        intro x hx hxn
        have hxr := huniq x (List.mem_cons_of_mem _ hx) hxn
        rw [hxr] at hx
        exact hmem hx
      have haeq : a = r := by
        rcases List.mem_cons.mp hrA with h | h
        · exact h.symm
        · exact absurd h hmem
      rw [haeq]
      simp [lastByName, hnone, hr]

/-- The action of `rapatriate_files` at position `i` is the per-file decision
applied to the `i`-th `rep2` file. -/
lemma rapatriate_get (rep1 : String) (A B : List File) (i : Nat)
    (h1 : i < B.length) (h2 : i < (rapatriate_files rep1 A B).length) :
    (rapatriate_files rep1 A B).get ⟨i, h2⟩ =
      match lastByName A (B.get ⟨i, h1⟩).name with
      | none => RAction.copied (B.get ⟨i, h1⟩).path (pathJoin rep1 (B.get ⟨i, h1⟩).name)
      | some rep1_file =>
        if rep1_file.last_modified < (B.get ⟨i, h1⟩).last_modified then
          RAction.updated (B.get ⟨i, h1⟩).path (pathJoin rep1 (B.get ⟨i, h1⟩).name)
        else RAction.skipped (B.get ⟨i, h1⟩).name := by
  simp only [rapatriate_files, List.get_eq_getElem, List.getElem_map]

/-- Claim C5: for the `i`-th candidate file, (a) if no reference file shares
its name the action is a fresh copy; (b) if one reference file shares its name
(uniquely), the action is an overwriting copy when the candidate is strictly
newer and a skip otherwise — content never consulted. -/
theorem rapatriate_case_analysis (rep1 : String) (A B : List File) (i : Nat)
    (h1 : i < B.length) (h2 : i < (rapatriate_files rep1 A B).length) :
    ((∀ r ∈ A, r.name ≠ (B.get ⟨i, h1⟩).name) →
      (rapatriate_files rep1 A B).get ⟨i, h2⟩ =
        RAction.copied (B.get ⟨i, h1⟩).path (pathJoin rep1 (B.get ⟨i, h1⟩).name))
    ∧ (∀ r ∈ A, r.name = (B.get ⟨i, h1⟩).name →
        (∀ x ∈ A, x.name = (B.get ⟨i, h1⟩).name → x = r) →
        ((r.last_modified < (B.get ⟨i, h1⟩).last_modified →
          (rapatriate_files rep1 A B).get ⟨i, h2⟩ =
            RAction.updated (B.get ⟨i, h1⟩).path (pathJoin rep1 (B.get ⟨i, h1⟩).name))
        ∧ (¬ r.last_modified < (B.get ⟨i, h1⟩).last_modified →
          (rapatriate_files rep1 A B).get ⟨i, h2⟩ =
            RAction.skipped (B.get ⟨i, h1⟩).name))) := by
  constructor
  · intro hnone
    rw [rapatriate_get rep1 A B i h1 h2, lastByName_eq_none hnone]
  · intro r hrA hrn huniq
    have hsome := lastByName_uniq hrA hrn huniq
    constructor
    · intro hlt
      rw [rapatriate_get rep1 A B i h1 h2, hsome]
      exact if_pos hlt
    · intro hge
      rw [rapatriate_get rep1 A B i h1 h2, hsome]
      exact if_neg hge

/-- Witness for C5: a candidate strictly newer than the same-named reference
file yields the overwriting copy into the reference root. -/
theorem rapatriate_case_analysis_witness :
    (rapatriate_files "d1" [⟨"d1/f", "f", 1, "", 5, "x"⟩]
        [⟨"d2/f", "f", 1, "", 9, "y"⟩]).get ⟨0, by decide⟩ =
      RAction.updated "d2/f" "d1/f" := by
  have h := (rapatriate_case_analysis "d1" [⟨"d1/f", "f", 1, "", 5, "x"⟩]
      [⟨"d2/f", "f", 1, "", 9, "y"⟩] 0 (by decide) (by decide)).2
    ⟨"d1/f", "f", 1, "", 5, "x"⟩ (by decide) (by decide) (by decide)
  exact (h.1 (by decide)).trans (by decide)

/-- Claim C10: every action carries as destination the reference root joined
with the candidate's basename (files in subdirectories are flattened to the
root), and when several reference files share the candidate's name the
decision compares against the last-enumerated one. -/
theorem rapatriate_dest_and_last_match (rep1 : String) (A B : List File) (i : Nat)
    (h1 : i < B.length) (h2 : i < (rapatriate_files rep1 A B).length) :
    ((rapatriate_files rep1 A B).get ⟨i, h2⟩ =
        RAction.copied (B.get ⟨i, h1⟩).path (pathJoin rep1 (B.get ⟨i, h1⟩).name)
      ∨ (rapatriate_files rep1 A B).get ⟨i, h2⟩ =
        RAction.updated (B.get ⟨i, h1⟩).path (pathJoin rep1 (B.get ⟨i, h1⟩).name)
      ∨ (rapatriate_files rep1 A B).get ⟨i, h2⟩ =
        RAction.skipped (B.get ⟨i, h1⟩).name)
    ∧ (∀ (A1 A2 : List File) (r : File), A = A1 ++ r :: A2 →
        r.name = (B.get ⟨i, h1⟩).name →
        (∀ x ∈ A2, x.name ≠ (B.get ⟨i, h1⟩).name) →
        ((r.last_modified < (B.get ⟨i, h1⟩).last_modified →
          (rapatriate_files rep1 A B).get ⟨i, h2⟩ =
            RAction.updated (B.get ⟨i, h1⟩).path (pathJoin rep1 (B.get ⟨i, h1⟩).name))
        ∧ (¬ r.last_modified < (B.get ⟨i, h1⟩).last_modified →
          (rapatriate_files rep1 A B).get ⟨i, h2⟩ =
            RAction.skipped (B.get ⟨i, h1⟩).name))) := by
  constructor
  · rw [rapatriate_get rep1 A B i h1 h2]
    cases hlb : lastByName A (B.get ⟨i, h1⟩).name with
    | none => exact Or.inl rfl
    | some r =>
      by_cases hlt : r.last_modified < (B.get ⟨i, h1⟩).last_modified
      · exact Or.inr (Or.inl (if_pos hlt))
      · exact Or.inr (Or.inr (if_neg hlt))
  · intro A1 A2 r hA hrn hlast
    have hsome : lastByName A (B.get ⟨i, h1⟩).name = some r := by
      rw [hA]
      exact lastByName_last hrn hlast A1
    constructor
    · intro hlt
      rw [rapatriate_get rep1 A B i h1 h2, hsome]
      exact if_pos hlt
    · intro hge
      rw [rapatriate_get rep1 A B i h1 h2, hsome]
      exact if_neg hge

/-- Witness for C10: a candidate from a subdirectory of the second root is
copied to the first root joined with its basename, and with two same-named
reference files only the last-enumerated (newer) one decides: the candidate is
skipped although it is newer than the first-enumerated reference file. -/
theorem rapatriate_dest_and_last_match_witness :
    (rapatriate_files "d1" [] [⟨"d2/sub/g", "g", 1, "", 4, "y"⟩]).get ⟨0, by decide⟩ =
      RAction.copied "d2/sub/g" "d1/g"
    ∧ (rapatriate_files "d1"
        [⟨"d1/f", "f", 1, "", 1, "x"⟩, ⟨"d1/sub/f", "f", 1, "", 10, "x2"⟩]
        [⟨"d2/f", "f", 1, "", 5, "y"⟩]).get ⟨0, by decide⟩ =
      RAction.skipped "f" := by
  constructor
  · have h := (rapatriate_dest_and_last_match "d1" []
        [⟨"d2/sub/g", "g", 1, "", 4, "y"⟩] 0 (by decide) (by decide)).1
    rcases h with h | h | h
    · exact h.trans (by decide)
    · exact absurd h (by decide)
    · exact absurd h (by decide)
  · have h := (rapatriate_dest_and_last_match "d1"
        [⟨"d1/f", "f", 1, "", 1, "x"⟩, ⟨"d1/sub/f", "f", 1, "", 10, "x2"⟩]
        [⟨"d2/f", "f", 1, "", 5, "y"⟩] 0 (by decide) (by decide)).2
      [⟨"d1/f", "f", 1, "", 1, "x"⟩] [] ⟨"d1/sub/f", "f", 1, "", 10, "x2"⟩
      rfl (by decide) (by decide)
    exact (h.2 (by decide)).trans (by decide)

/-- Claim C7: without affirmative confirmation nothing is attempted or
deleted; with confirmation the attempted deletions are exactly the paths the
Cross-Set Comparator returned, whatever `remove_ok` does — in particular a
failing deletion never suppresses the remaining attempts. -/
theorem delete_confirmation_spec (A B : List File) (remove_ok : String → Bool) :
    delete_duplicates_in_rep2_with_confirmation A B false remove_ok = ([], [])
    ∧ (delete_duplicates_in_rep2_with_confirmation A B true remove_ok).1 =
        (find_duplicates_in_rep2 A B).map (fun f => f.path)
    ∧ (∀ remove_ok2 : String → Bool,
        (delete_duplicates_in_rep2_with_confirmation A B true remove_ok).1 =
          (delete_duplicates_in_rep2_with_confirmation A B true remove_ok2).1) := by
  by_cases hd : find_duplicates_in_rep2 A B = []
  · refine ⟨?_, ?_, ?_⟩ <;>
      simp [delete_duplicates_in_rep2_with_confirmation, List.isEmpty_iff, hd]
  · refine ⟨?_, ?_, ?_⟩ <;>
      simp [delete_duplicates_in_rep2_with_confirmation, List.isEmpty_iff, hd]

/-- Claim C8: `find_duplicates` is a function of the input list alone — two
runs on the same records in the same order emit the same groups in the same
order with the same internal ordering. -/
theorem find_duplicates_deterministic (l1 l2 : List File) (h : l1 = l2) :
    find_duplicates l1 = find_duplicates l2 := by
  rw [h]

/-- Witness for C8 at a concrete input list. -/
theorem find_duplicates_deterministic_witness :
    find_duplicates
      [⟨"t/a", "a", 1, "58", 0, "9dd4e461"⟩, ⟨"t/b", "b", 1, "58", 0, "9dd4e461"⟩] =
    find_duplicates
      [⟨"t/a", "a", 1, "58", 0, "9dd4e461"⟩, ⟨"t/b", "b", 1, "58", 0, "9dd4e461"⟩] :=
  find_duplicates_deterministic _ _ rfl

lemma sumVals_addSize (k : String) (n : Nat) (d : List (String × Nat)) :
    sumVals (addSize k n d) = sumVals d + n := by
  induction d with
  | nil => simp [addSize, sumVals]
  | cons p rest ih =>
    rcases p with ⟨k2, m⟩
    rw [addSize]
    by_cases hk : k2 = k
    · rw [if_pos hk]
      simp only [sumVals, List.foldr_cons]
      omega
    · rw [if_neg hk]
      simp only [sumVals, List.foldr_cons] at ih ⊢
      omega

lemma sumVals_fold (l : List File) :
    ∀ acc : List (String × Nat),
      sumVals (l.foldl (fun acc f => addSize (get_file_category f.path) f.size acc) acc) =
        sumVals acc + sumSizes l := by
  induction l with
  | nil =>
    intro acc
    simp [sumSizes]
  | cons f fs ih =>
    intro acc
    rw [List.foldl_cons, ih, sumVals_addSize]
    simp only [sumSizes, List.foldr_cons]
    omega

/-- Claim C9: the per-category totals of `calculate_size_by_category` sum to
the total size of the input — each file is charged once, to the category
`get_file_category` assigns to its path. -/
theorem size_by_category_sum (file_list : List File) :
    sumVals (calculate_size_by_category file_list) = sumSizes file_list := by
  rw [calculate_size_by_category, sumVals_fold]
  simp [sumVals]
